import Mathlib

/-!
Verification of the branchlet worktree manager's orchestration core.

JavaScript strings are modelled as Lean `String`; the JS operations
`String.prototype.startsWith` and `String.prototype.trim` are modelled on the
underlying character list (`jsStartsWith`, `jsTrim`), which matches the JS
semantics (code-unit prefix test, whitespace stripping at both ends).
Filesystem paths are modelled as lists of path components (`Path`), already
normalized the way `process.cwd()` / `path.resolve` deliver them.
-/

/-- Model of JS `s.startsWith(pre)`: `pre`'s character sequence is a prefix of
`s`'s character sequence. -/
def jsStartsWith (s pre : String) : Bool :=
  pre.data.isPrefixOf s.data

/-- Whitespace characters stripped by JS `String.prototype.trim`
(the ones relevant to this program's inputs). -/
def isJsWhitespace (c : Char) : Bool :=
  c = ' ' || c = '\t' || c = '\n' || c = '\r'

/-- Model of JS `s.trim()`: strip whitespace from both ends. -/
def jsTrim (s : String) : String :=
  ⟨(((s.data.dropWhile isJsWhitespace).reverse.dropWhile isJsWhitespace).reverse)⟩

/-- From `src/panels/create/index.tsx` (`applyBranchPrefix`):
```
function applyBranchPrefix(branchName: string, prefix: string): string {
  if (!prefix || !branchName) return branchName
  if (branchName.startsWith(prefix)) return branchName
  return `${prefix}${branchName}`
}
```
JS truthiness of a string is the test against `""`. -/
def applyBranchPrefix (branchName pfx : String) : String :=
  if pfx = "" || branchName = "" then branchName
  else if jsStartsWith branchName pfx then branchName
  else pfx ++ branchName

/- Basic facts about the string model. -/

theorem jsStartsWith_iff (s pre : String) :
    jsStartsWith s pre = true ↔ ∃ t, s.data = pre.data ++ t := by
  unfold jsStartsWith
  rw [List.isPrefixOf_iff_prefix]
  constructor
  · rintro ⟨t, ht⟩
    exact ⟨t, ht.symm⟩
  · rintro ⟨t, ht⟩
    exact ⟨t, ht.symm⟩

theorem jsStartsWith_append (p n : String) :
    jsStartsWith (p ++ n) p = true := by
  rw [jsStartsWith_iff]
  exact ⟨n.data, by simp⟩

theorem String.eq_empty_iff_data (s : String) : s = "" ↔ s.data = [] := by
  constructor
  · intro h; subst h; rfl
  · intro h
    apply String.ext
    simpa using h

theorem append_ne_empty_of_left_ne_empty (p n : String) (hp : p ≠ "") :
    p ++ n ≠ "" := by
  intro h
  rw [String.eq_empty_iff_data] at h
  rw [Ne, String.eq_empty_iff_data] at hp
  simp only [String.data_append, List.append_eq_nil] at h
  exact hp h.1

/-! ## Configuration data model

From the configuration schema documented in the README (`.branchlet.json`
fields) and the fields the source reads on `config`. -/

/-- The resolved worktree configuration (every field total). -/
structure WorktreeConfig where
  worktreeCopyPatterns : List String
  worktreeCopyIgnores : List String
  worktreePathTemplate : String
  postCreateCmd : List String
  terminalCommand : String
  deleteBranchWithWorktree : Bool
  branchPrefix : String
  defaultSourceBranch : String
deriving DecidableEq, Repr

/-! ## Claims about `applyBranchPrefix` -/

/-- **C3 counterexample**: with the empty entered name and the non-empty
configured prefix `"x/"`, the name does not start with the prefix, yet
`applyBranchPrefix` returns it unchanged instead of prepending the prefix
(the claim as stated predicts `"x/"`). -/
theorem applyBranchPrefix_empty_name_cex :
    applyBranchPrefix "" "x/" = "" ∧ jsStartsWith "" "x/" = false ∧
      applyBranchPrefix "" "x/" ≠ "x/" ++ "" := by
  refine ⟨by decide, by decide, by decide⟩

/-- **C3 (amended)**: for every *non-empty* user-entered branch name and every
non-empty configured prefix, `applyBranchPrefix` returns the name unchanged if
the name already starts with the prefix (its character sequence extends the
prefix's), and otherwise returns the prefix prepended to the name. -/
theorem applyBranchPrefix_correct (n p : String) (hn : n ≠ "") (hp : p ≠ "") :
    ((∃ t, n.data = p.data ++ t) → applyBranchPrefix n p = n) ∧
    (¬(∃ t, n.data = p.data ++ t) → applyBranchPrefix n p = p ++ n) := by
  constructor
  · intro h
    have hsw : jsStartsWith n p = true := (jsStartsWith_iff n p).mpr h
    simp [applyBranchPrefix, hn, hp, hsw]
  · intro h
    have hsw : jsStartsWith n p = false := by
      cases hcase : jsStartsWith n p
      · rfl
      · exact absurd ((jsStartsWith_iff n p).mp hcase) h
    simp [applyBranchPrefix, hn, hp, hsw]

/-- Witness for `applyBranchPrefix_correct` at name `"login"`, prefix
`"team/"`. -/
theorem applyBranchPrefix_correct_witness :
    applyBranchPrefix "login" "team/" = "team/" ++ "login" := by
  refine (applyBranchPrefix_correct "login" "team/" (by decide) (by decide)).2 ?_
  rintro ⟨t, ht⟩
  simp at ht

/-- **C4**: the branch-prefix rule is idempotent: for all branch names `n` and
all prefixes `p`,
`applyBranchPrefix (applyBranchPrefix n p) p = applyBranchPrefix n p`. -/
theorem applyBranchPrefix_idem (n p : String) :
    applyBranchPrefix (applyBranchPrefix n p) p = applyBranchPrefix n p := by
  by_cases hp : p = ""
  · simp [applyBranchPrefix, hp]
  · by_cases hn : n = ""
    · simp [applyBranchPrefix, hp, hn]
    · by_cases hsw : jsStartsWith n p
      · simp [applyBranchPrefix, hp, hn, hsw]
      · have h1 : applyBranchPrefix n p = p ++ n := by
          simp [applyBranchPrefix, hp, hn, hsw]
        rw [h1]
        have hne : p ++ n ≠ "" := append_ne_empty_of_left_ne_empty p n hp
        simp [applyBranchPrefix, hp, hne, jsStartsWith_append]

/-- **C9**: the prefix is never prepended to the empty branch name, and the
empty prefix never changes a branch name. -/
theorem applyBranchPrefix_empty_cases (n p : String) :
    applyBranchPrefix "" p = "" ∧ applyBranchPrefix n "" = n := by
  constructor
  · simp [applyBranchPrefix]
  · simp [applyBranchPrefix]

/-! ## Interactive new-branch submission (create flow) -/

/-- From `src/panels/create/index.tsx` (`handleNewBranchSubmit`): the submitted
text is trimmed; if the trimmed text is empty the new branch is set to the
previously selected source branch (no prefix applied), otherwise the
branch-prefix rule is applied to the trimmed text.  Returns the `newBranch`
value stored in the state (the step becomes `confirm` either way).
```
const trimmedBranch = newBranch.trim()
const prefix = config.branchPrefix || ""
const finalBranch = trimmedBranch ? applyBranchPrefix(trimmedBranch, prefix) : state.sourceBranch
```
-/
def handleNewBranchSubmit (newBranch sourceBranch : String) (config : WorktreeConfig) : String :=
  let trimmedBranch := jsTrim newBranch
  if trimmedBranch = "" then sourceBranch
  else applyBranchPrefix trimmedBranch config.branchPrefix

/-- **C10**: submitting an empty or whitespace-only new-branch name sets the
new branch equal to the selected source branch (no prefix applied, so the
creation takes the existing-branch path `newBranch = sourceBranch`); a
non-empty submission gets the branch prefix applied to the trimmed text. -/
theorem handleNewBranchSubmit_spec (input src : String) (config : WorktreeConfig) :
    (jsTrim input = "" → handleNewBranchSubmit input src config = src) ∧
    (jsTrim input ≠ "" →
      handleNewBranchSubmit input src config =
        applyBranchPrefix (jsTrim input) config.branchPrefix) := by
  constructor
  · intro h
    simp [handleNewBranchSubmit, h]
  · intro h
    simp [handleNewBranchSubmit, h]

/-- Witness for `handleNewBranchSubmit_spec`: a whitespace-only submission
with source branch `"main"` yields `"main"`, and submitting `" login "` with
prefix `"team/"` yields `"team/login"`. -/
theorem handleNewBranchSubmit_spec_witness :
    handleNewBranchSubmit "   " "main"
        ⟨[], [], "", [], "", false, "team/", ""⟩ = "main" ∧
    handleNewBranchSubmit " login " "main"
        ⟨[], [], "", [], "", false, "team/", ""⟩ = "team/login" := by
  constructor
  · exact (handleNewBranchSubmit_spec "   " "main"
      ⟨[], [], "", [], "", false, "team/", ""⟩).1 (by decide)
  · have h := (handleNewBranchSubmit_spec " login " "main"
      ⟨[], [], "", [], "", false, "team/", ""⟩).2 (by decide)
    rw [h]
    decide

/-! ## Configuration loading (ConfigService.loadConfig) -/

/-- A configuration file's contents: each field either present or absent.
Modelled from the spec: the schema file (`src/schemas/config-schema.ts`,
`validateConfig`) is not part of the provided source; per the spec a
partially specified file is valid and contributes exactly the fields it
specifies, every field having a total default. -/
structure PartialWorktreeConfig where
  worktreeCopyPatterns : Option (List String) := none
  worktreeCopyIgnores : Option (List String) := none
  worktreePathTemplate : Option String := none
  postCreateCmd : Option (List String) := none
  terminalCommand : Option String := none
  deleteBranchWithWorktree : Option Bool := none
  branchPrefix : Option String := none
  defaultSourceBranch : Option String := none
deriving DecidableEq, Repr

/-- Hard-coded defaults (`DEFAULT_CONFIG`), values as documented in the
README's configuration section. -/
def DEFAULT_CONFIG : WorktreeConfig where
  worktreeCopyPatterns := [".env*", ".vscode/**"]
  worktreeCopyIgnores :=
    ["**/node_modules/**", "**/dist/**", "**/.git/**", "**/Thumbs.db", "**/.DS_Store"]
  worktreePathTemplate := "$BASE_PATH.worktree"
  postCreateCmd := []
  terminalCommand := ""
  deleteBranchWithWorktree := false
  branchPrefix := ""
  defaultSourceBranch := ""

/-- The JS object spread `{ ...base, ...local }` where `local` holds exactly
the fields present in the local file: a present field takes the local value,
an absent field keeps `base`'s value. -/
def overlayConfig (base : WorktreeConfig) (l : PartialWorktreeConfig) : WorktreeConfig where
  worktreeCopyPatterns := l.worktreeCopyPatterns.getD base.worktreeCopyPatterns
  worktreeCopyIgnores := l.worktreeCopyIgnores.getD base.worktreeCopyIgnores
  worktreePathTemplate := l.worktreePathTemplate.getD base.worktreePathTemplate
  postCreateCmd := l.postCreateCmd.getD base.postCreateCmd
  terminalCommand := l.terminalCommand.getD base.terminalCommand
  deleteBranchWithWorktree := l.deleteBranchWithWorktree.getD base.deleteBranchWithWorktree
  branchPrefix := l.branchPrefix.getD base.branchPrefix
  defaultSourceBranch := l.defaultSourceBranch.getD base.defaultSourceBranch

/-- A schema-validated file filled with the schema's per-field defaults
(modelled from the spec: "every field has a total default"). -/
def fillDefaults (p : PartialWorktreeConfig) : WorktreeConfig :=
  overlayConfig DEFAULT_CONFIG p

/-- From `src/services/config-service.ts` (`ConfigService.loadConfig`):
the in-memory config starts as `DEFAULT_CONFIG`; if the global file exists
and validates it becomes the base; if the local file exists and validates it
is overlaid field-by-field (`{ ...this.config, ...localValidation.data }`).
`none` stands for a missing, malformed or schema-invalid file (skipped). -/
def loadConfig (globalFile localFile : Option PartialWorktreeConfig) : WorktreeConfig :=
  let base := match globalFile with
    | some g => fillDefaults g
    | none => DEFAULT_CONFIG
  match localFile with
  | some l => overlayConfig base l
  | none => base

/-- A local file specifying only `branchPrefix`. -/
def localOnlyBranchPfx (v : String) : PartialWorktreeConfig where
  branchPrefix := some v

/-- **C1**: `loadConfig` overlays the local file onto the global configuration
field-by-field: a field present in the local file takes the local value, every
absent field keeps its global value, and in particular a local file specifying
only `branchPrefix` changes only that field (the global `postCreateCmd` is
kept). -/
theorem loadConfig_field_level_override (g l : PartialWorktreeConfig) :
    loadConfig (some g) (some l) = overlayConfig (fillDefaults g) l ∧
    (∀ (gc : WorktreeConfig) (p : PartialWorktreeConfig),
      (p.worktreeCopyPatterns = none →
        (overlayConfig gc p).worktreeCopyPatterns = gc.worktreeCopyPatterns) ∧
      (∀ v, p.worktreeCopyPatterns = some v →
        (overlayConfig gc p).worktreeCopyPatterns = v) ∧
      (p.worktreeCopyIgnores = none →
        (overlayConfig gc p).worktreeCopyIgnores = gc.worktreeCopyIgnores) ∧
      (∀ v, p.worktreeCopyIgnores = some v →
        (overlayConfig gc p).worktreeCopyIgnores = v) ∧
      (p.worktreePathTemplate = none →
        (overlayConfig gc p).worktreePathTemplate = gc.worktreePathTemplate) ∧
      (∀ v, p.worktreePathTemplate = some v →
        (overlayConfig gc p).worktreePathTemplate = v) ∧
      (p.postCreateCmd = none →
        (overlayConfig gc p).postCreateCmd = gc.postCreateCmd) ∧
      (∀ v, p.postCreateCmd = some v →
        (overlayConfig gc p).postCreateCmd = v) ∧
      (p.terminalCommand = none →
        (overlayConfig gc p).terminalCommand = gc.terminalCommand) ∧
      (∀ v, p.terminalCommand = some v →
        (overlayConfig gc p).terminalCommand = v) ∧
      (p.deleteBranchWithWorktree = none →
        (overlayConfig gc p).deleteBranchWithWorktree = gc.deleteBranchWithWorktree) ∧
      (∀ v, p.deleteBranchWithWorktree = some v →
        (overlayConfig gc p).deleteBranchWithWorktree = v) ∧
      (p.branchPrefix = none →
        (overlayConfig gc p).branchPrefix = gc.branchPrefix) ∧
      (∀ v, p.branchPrefix = some v →
        (overlayConfig gc p).branchPrefix = v) ∧
      (p.defaultSourceBranch = none →
        (overlayConfig gc p).defaultSourceBranch = gc.defaultSourceBranch) ∧
      (∀ v, p.defaultSourceBranch = some v →
        (overlayConfig gc p).defaultSourceBranch = v)) ∧
    (∀ (gc : WorktreeConfig) (v : String),
      overlayConfig gc (localOnlyBranchPfx v) = { gc with branchPrefix := v }) := by
  refine ⟨rfl, ?_, ?_⟩
  · intro gc p
    refine ⟨?_, ?_, ?_, ?_, ?_, ?_, ?_, ?_, ?_, ?_, ?_, ?_, ?_, ?_, ?_, ?_⟩ <;>
      first
        | (intro h; simp [overlayConfig, h])
        | (intro v h; simp [overlayConfig, h])
  · intro gc v
    simp [overlayConfig, localOnlyBranchPfx]

/-- Witness for `loadConfig_field_level_override`: a global config with a
custom `postCreateCmd` overlaid by a local file containing only
`branchPrefix := "x/"` keeps the global `postCreateCmd` and takes the local
prefix value. -/
theorem loadConfig_field_level_override_witness :
    (overlayConfig { DEFAULT_CONFIG with postCreateCmd := ["npm install"] }
        (localOnlyBranchPfx "x/")).postCreateCmd = ["npm install"] ∧
    (overlayConfig { DEFAULT_CONFIG with postCreateCmd := ["npm install"] }
        (localOnlyBranchPfx "x/")).branchPrefix = "x/" := by
  have h := loadConfig_field_level_override (localOnlyBranchPfx "x/")
    (localOnlyBranchPfx "x/")
  refine ⟨?_, ?_⟩
  · exact (h.2.1 { DEFAULT_CONFIG with postCreateCmd := ["npm install"] }
      (localOnlyBranchPfx "x/")).2.2.2.2.2.2.1 rfl
  · exact ((h.2.1 { DEFAULT_CONFIG with postCreateCmd := ["npm install"] }
      (localOnlyBranchPfx "x/")).2.2.2.2.2.2.2.2.2.2.2.2.2.1) "x/" rfl

/-! ## Batch delete (list panel, `executeBatchDelete`) -/

/-- Outcome of a batch delete: successfully deleted paths and
`(path, error message)` pairs for failures. -/
structure BatchDeleteResult where
  success : List String
  failed : List (String × String)
deriving DecidableEq, Repr

/-- A known worktree as far as batch delete needs it: its path and whether it
is clean. -/
structure WorktreeEntry where
  path : String
  isClean : Bool
deriving DecidableEq, Repr

/-- From `src/panels` list panel (`executeBatchDelete`): the selected paths are
processed strictly sequentially; for each, `force` is derived from the known
worktree's cleanliness (`worktree ? !worktree.isClean : false`), the delete is
attempted (`del`, modelling `worktreeService.deleteWorktree`), and the path is
appended to the success list or the failure list; a failure never aborts the
remaining items. -/
def executeBatchDelete (worktrees : List WorktreeEntry)
    (del : String → Bool → Except String Unit) :
    List String → BatchDeleteResult
  | [] => ⟨[], []⟩
  | p :: rest =>
    let force := match worktrees.find? (fun wt => wt.path = p) with
      | some wt => !wt.isClean
      | none => false
    let r := executeBatchDelete worktrees del rest
    match del p force with
    | .ok _ => ⟨p :: r.success, r.failed⟩
    | .error e => ⟨r.success, (p, e) :: r.failed⟩

/-- The `force` flag batch delete uses for a path. -/
def batchForce (worktrees : List WorktreeEntry) (p : String) : Bool :=
  match worktrees.find? (fun wt => wt.path = p) with
  | some wt => !wt.isClean
  | none => false

theorem executeBatchDelete_mem_success (worktrees : List WorktreeEntry)
    (del : String → Bool → Except String Unit) (paths : List String) (p : String) :
    p ∈ (executeBatchDelete worktrees del paths).success ↔
      p ∈ paths ∧ (del p (batchForce worktrees p)).isOk = true := by
  induction paths with
  | nil => simp [executeBatchDelete]
  | cons q rest ih =>
    simp only [executeBatchDelete, batchForce]
    cases hdel : del q (match worktrees.find? (fun wt => wt.path = q) with
      | some wt => !wt.isClean
      | none => false) with
    | ok u =>
      simp only [List.mem_cons, ih, batchForce]
      constructor
      · rintro (rfl | ⟨hmem, hok⟩)
        · exact ⟨Or.inl rfl, by simp [hdel, Except.isOk, Except.toBool]⟩
        · exact ⟨Or.inr hmem, hok⟩
      · rintro ⟨(rfl | hmem), hok⟩
        · exact Or.inl rfl
        · exact Or.inr ⟨hmem, hok⟩
    | error e =>
      simp only [ih, batchForce, List.mem_cons]
      constructor
      · rintro ⟨hmem, hok⟩
        exact ⟨Or.inr hmem, hok⟩
      · rintro ⟨(rfl | hmem), hok⟩
        · simp [hdel, Except.isOk, Except.toBool] at hok
        · exact ⟨hmem, hok⟩

theorem executeBatchDelete_mem_failed (worktrees : List WorktreeEntry)
    (del : String → Bool → Except String Unit) (paths : List String) (p : String) :
    p ∈ (executeBatchDelete worktrees del paths).failed.map Prod.fst ↔
      p ∈ paths ∧ (del p (batchForce worktrees p)).isOk = false := by
  induction paths with
  | nil => simp [executeBatchDelete]
  | cons q rest ih =>
    simp only [executeBatchDelete, batchForce]
    cases hdel : del q (match worktrees.find? (fun wt => wt.path = q) with
      | some wt => !wt.isClean
      | none => false) with
    | ok u =>
      simp only [ih, batchForce, List.mem_cons]
      constructor
      · rintro ⟨hmem, hok⟩
        exact ⟨Or.inr hmem, hok⟩
      · rintro ⟨(rfl | hmem), hok⟩
        · simp [hdel, Except.isOk, Except.toBool] at hok
        · exact ⟨hmem, hok⟩
    | error e =>
      simp only [List.map_cons, List.mem_cons, ih, batchForce]
      constructor
      · rintro (rfl | ⟨hmem, hok⟩)
        · exact ⟨Or.inl rfl, by simp [hdel, Except.isOk, Except.toBool]⟩
        · exact ⟨Or.inr hmem, hok⟩
      · rintro ⟨(rfl | hmem), hok⟩
        · exact Or.inl rfl
        · exact Or.inr ⟨hmem, hok⟩

theorem executeBatchDelete_length (worktrees : List WorktreeEntry)
    (del : String → Bool → Except String Unit) (paths : List String) :
    (executeBatchDelete worktrees del paths).success.length +
      (executeBatchDelete worktrees del paths).failed.length = paths.length := by
  induction paths with
  | nil => simp [executeBatchDelete]
  | cons q rest ih =>
    simp only [executeBatchDelete]
    cases hdel : del q (match worktrees.find? (fun wt => wt.path = q) with
      | some wt => !wt.isClean
      | none => false) with
    | ok u =>
      dsimp only
      simp only [List.length_cons]
      omega
    | error e =>
      dsimp only
      simp only [List.length_cons]
      omega

/-- **C5**: batch delete accounts for every selected path exactly once: each
selected path lands in the success list or (with its error) in the failure
list but never both, and a failure on one path never aborts the rest — the
two result lists together are exactly as long as the input selection. -/
theorem executeBatchDelete_partition (worktrees : List WorktreeEntry)
    (del : String → Bool → Except String Unit) (paths : List String) :
    ((executeBatchDelete worktrees del paths).success.length +
      (executeBatchDelete worktrees del paths).failed.length = paths.length) ∧
    (∀ p, p ∈ paths →
      (p ∈ (executeBatchDelete worktrees del paths).success ∧
        p ∉ (executeBatchDelete worktrees del paths).failed.map Prod.fst) ∨
      (p ∉ (executeBatchDelete worktrees del paths).success ∧
        p ∈ (executeBatchDelete worktrees del paths).failed.map Prod.fst)) ∧
    (∀ p, p ∈ (executeBatchDelete worktrees del paths).success ∨
        p ∈ (executeBatchDelete worktrees del paths).failed.map Prod.fst →
      p ∈ paths) := by
  refine ⟨executeBatchDelete_length worktrees del paths, ?_, ?_⟩
  · intro p hp
    cases hok : (del p (batchForce worktrees p)).isOk with
    | true =>
      left
      refine ⟨(executeBatchDelete_mem_success worktrees del paths p).mpr ⟨hp, hok⟩, ?_⟩
      intro hmem
      have := ((executeBatchDelete_mem_failed worktrees del paths p).mp hmem).2
      rw [hok] at this
      exact Bool.noConfusion this
    | false =>
      right
      refine ⟨?_, (executeBatchDelete_mem_failed worktrees del paths p).mpr ⟨hp, hok⟩⟩
      intro hmem
      have := ((executeBatchDelete_mem_success worktrees del paths p).mp hmem).2
      rw [hok] at this
      simp at this
  · intro p hp
    cases hp with
    | inl h => exact ((executeBatchDelete_mem_success worktrees del paths p).mp h).1
    | inr h => exact ((executeBatchDelete_mem_failed worktrees del paths p).mp h).1

/-- Witness for `executeBatchDelete_partition`: three selected paths where
deletion of the second fails yield two successes and one failure, with the
second path accounted for on the failure side. -/
theorem executeBatchDelete_partition_witness :
    executeBatchDelete [⟨"a", true⟩, ⟨"b", true⟩, ⟨"c", false⟩]
        (fun p _ => if p = "b" then .error "boom" else .ok ())
        ["a", "b", "c"] = ⟨["a", "c"], [("b", "boom")]⟩ ∧
    (("b" ∈ (executeBatchDelete [⟨"a", true⟩, ⟨"b", true⟩, ⟨"c", false⟩]
        (fun p _ => if p = "b" then .error "boom" else .ok ())
        ["a", "b", "c"]).success ∧
      "b" ∉ (executeBatchDelete [⟨"a", true⟩, ⟨"b", true⟩, ⟨"c", false⟩]
        (fun p _ => if p = "b" then .error "boom" else .ok ())
        ["a", "b", "c"]).failed.map Prod.fst) ∨
     ("b" ∉ (executeBatchDelete [⟨"a", true⟩, ⟨"b", true⟩, ⟨"c", false⟩]
        (fun p _ => if p = "b" then .error "boom" else .ok ())
        ["a", "b", "c"]).success ∧
      "b" ∈ (executeBatchDelete [⟨"a", true⟩, ⟨"b", true⟩, ⟨"c", false⟩]
        (fun p _ => if p = "b" then .error "boom" else .ok ())
        ["a", "b", "c"]).failed.map Prod.fst)) := by
  refine ⟨by decide, ?_⟩
  exact (executeBatchDelete_partition [⟨"a", true⟩, ⟨"b", true⟩, ⟨"c", false⟩]
    (fun p _ => if p = "b" then .error "boom" else .ok ())
    ["a", "b", "c"]).2.1 "b" (by decide)

/-! ## Navigation target path (`getTargetPath`, close/create/list panels)

Absolute filesystem paths are modelled as lists of path components, already
normalized (no `""`, `"."` or `".."` components), as `path.resolve` /
`process.cwd()` deliver them.  `path.relative(base, t)` on such paths strips
the longest common component prefix and produces `".."` components for what
remains of `base` followed by what remains of `t`; the JS string test
`relativePath.startsWith("..")` is the test whether the first component of
that list starts with the two characters `".."`. -/

/-- A normalized absolute path, as its list of components. -/
abbrev FsPath := List String

/-- Length of the longest common component prefix of two paths. -/
def commonLen : FsPath → FsPath → Nat
  | a :: as, b :: bs => if a = b then commonLen as bs + 1 else 0
  | _, _ => 0

/-- Model of node `path.relative(base, target)` on normalized absolute paths:
`".."` components for the uncommon part of `base`, then the uncommon part of
`target`. -/
def pathRelative (base target : FsPath) : List String :=
  List.replicate (base.length - commonLen base target) ".." ++
    target.drop (commonLen base target)

/-- Model of the JS test `relativePath.startsWith("..")`, where
`relativePath` is the component list joined with `"/"`: whether the first
component starts with the two characters `".."`. -/
def relStartsWithDotDot (rel : List String) : Bool :=
  match rel with
  | [] => false
  | c :: _ => jsStartsWith c ".."

/-- From `src/panels/close/index.tsx` (`getTargetPath`, shared with the
create and list panels with the roles of the two roots swapped):
```
if (!originalCwd) return destRoot
const relativePath = relative(srcRoot, originalCwd)
if (!relativePath || relativePath.startsWith("..")) return destRoot
const targetPath = join(destRoot, relativePath)
return existsSync(targetPath) ? targetPath : destRoot
```
`fsExists` models `existsSync`. -/
def getTargetPath (destRoot srcRoot : FsPath) (originalCwd : Option FsPath)
    (fsExists : FsPath → Bool) : FsPath :=
  match originalCwd with
  | none => destRoot
  | some cwd =>
    let rel := pathRelative srcRoot cwd
    if rel = [] || relStartsWithDotDot rel then destRoot
    else if fsExists (destRoot ++ rel) then destRoot ++ rel
    else destRoot

theorem commonLen_self (l : FsPath) : commonLen l l = l.length := by
  induction l with
  | nil => rfl
  | cons a as ih => simp [commonLen, ih]

theorem commonLen_append (l t : FsPath) : commonLen l (l ++ t) = l.length := by
  induction l with
  | nil => rfl
  | cons a as ih => simp [commonLen, ih]

theorem commonLen_lt_of_not_prefix (l t : FsPath) (h : ¬ l <+: t) :
    commonLen l t < l.length := by
  induction l generalizing t with
  | nil => exact absurd List.nil_prefix h
  | cons a as ih =>
    cases t with
    | nil => simp [commonLen]
    | cons b bs =>
      by_cases hab : a = b
      · subst hab
        have h' : ¬ as <+: bs := by
          intro hp
          exact h (List.cons_prefix_cons.mpr ⟨rfl, hp⟩)
        simpa [commonLen] using Nat.succ_lt_succ (ih bs h')
      · simp [commonLen, hab]

theorem pathRelative_self (l : FsPath) : pathRelative l l = [] := by
  simp [pathRelative, commonLen_self]

theorem pathRelative_append (l t : FsPath) : pathRelative l (l ++ t) = t := by
  simp [pathRelative, commonLen_append]

theorem relStartsWithDotDot_of_not_prefix (base t : FsPath) (h : ¬ base <+: t) :
    relStartsWithDotDot (pathRelative base t) = true := by
  have hlt := commonLen_lt_of_not_prefix base t h
  unfold pathRelative
  cases hk : base.length - commonLen base t with
  | zero => omega
  | succ k =>
    rw [List.replicate_succ]
    simp only [List.cons_append, relStartsWithDotDot]
    decide

/-- **C2 (amended)**: for every destination root, worktree root and original
working directory (normalized component paths), the navigation target is: the
relative path of the cwd with respect to the worktree root is computed; if it
is empty or its first component starts with the two characters `".."` — which
covers every cwd that escapes the worktree root, but also a non-escaping cwd
whose first component below the root merely begins with `".."` — the target
is the destination root; otherwise the relative path is joined onto the
destination root and used if and only if the joined path exists on disk,
else the destination root.  The result is always either the destination root
or an existing path strictly under it. -/
theorem getTargetPath_spec (destRoot srcRoot cwd : FsPath) (fsExists : FsPath → Bool)
    (hnorm : "" ∉ cwd ∧ "." ∉ cwd ∧ ".." ∉ cwd) :
    (getTargetPath destRoot srcRoot none fsExists = destRoot) ∧
    (cwd = srcRoot → getTargetPath destRoot srcRoot (some cwd) fsExists = destRoot) ∧
    (¬ srcRoot <+: cwd → getTargetPath destRoot srcRoot (some cwd) fsExists = destRoot) ∧
    (∀ rest, cwd = srcRoot ++ rest → relStartsWithDotDot rest = true →
      getTargetPath destRoot srcRoot (some cwd) fsExists = destRoot) ∧
    (∀ rest, cwd = srcRoot ++ rest → rest ≠ [] → relStartsWithDotDot rest = false →
      getTargetPath destRoot srcRoot (some cwd) fsExists =
        if fsExists (destRoot ++ rest) then destRoot ++ rest else destRoot) ∧
    (getTargetPath destRoot srcRoot (some cwd) fsExists = destRoot ∨
      (fsExists (getTargetPath destRoot srcRoot (some cwd) fsExists) = true ∧
        destRoot <+: getTargetPath destRoot srcRoot (some cwd) fsExists ∧
        getTargetPath destRoot srcRoot (some cwd) fsExists ≠ destRoot)) := by
  refine ⟨rfl, ?_, ?_, ?_, ?_, ?_⟩
  · intro h
    subst h
    simp [getTargetPath, pathRelative_self]
  · intro h
    simp [getTargetPath, relStartsWithDotDot_of_not_prefix srcRoot cwd h]
  · intro rest hcwd hdd
    subst hcwd
    simp [getTargetPath, pathRelative_append, hdd]
  · intro rest hcwd hne hdd
    subst hcwd
    simp [getTargetPath, pathRelative_append, hne, hdd]
  · by_cases hne : pathRelative srcRoot cwd = []
    · left
      simp [getTargetPath, hne]
    · cases hdd : relStartsWithDotDot (pathRelative srcRoot cwd) with
      | true =>
        left
        simp [getTargetPath, hdd]
      | false =>
        cases h2 : fsExists (destRoot ++ pathRelative srcRoot cwd) with
        | true =>
          right
          have hval : getTargetPath destRoot srcRoot (some cwd) fsExists =
              destRoot ++ pathRelative srcRoot cwd := by
            simp [getTargetPath, hne, hdd, h2]
          rw [hval]
          refine ⟨h2, List.prefix_append destRoot _, ?_⟩
          intro heq
          apply hne
          have hlen := congrArg List.length heq
          rw [List.length_append] at hlen
          exact List.eq_nil_of_length_eq_zero (by omega)
        | false =>
          left
          simp [getTargetPath, hne, hdd, h2]

/-- Witness for `getTargetPath_spec`: worktree root `/r/wt`, destination root
`/r/main`, original cwd `/r/wt/sub`: when `/r/main/sub` exists the result is
`/r/main/sub`; when it does not exist the result is `/r/main`; and for
original cwd `/r/wt/..foo` (relative path starting with `".."`) the result is
`/r/main` even though `/r/main/..foo` exists. -/
theorem getTargetPath_spec_witness :
    getTargetPath ["r", "main"] ["r", "wt"] (some ["r", "wt", "sub"])
        (fun p => decide (p = ["r", "main", "sub"])) = ["r", "main", "sub"] ∧
    getTargetPath ["r", "main"] ["r", "wt"] (some ["r", "wt", "sub"])
        (fun _ => false) = ["r", "main"] ∧
    getTargetPath ["r", "main"] ["r", "wt"] (some ["r", "wt", "..foo"])
        (fun p => decide (p = ["r", "main", "..foo"])) = ["r", "main"] := by
  refine ⟨?_, ?_, ?_⟩
  · have h := (getTargetPath_spec ["r", "main"] ["r", "wt"] ["r", "wt", "sub"]
      (fun p => decide (p = ["r", "main", "sub"]))
      (by refine ⟨?_, ?_, ?_⟩ <;> decide)).2.2.2.2.1 ["sub"] (by decide) (by decide)
      (by decide)
    rw [h]
    decide
  · have h := (getTargetPath_spec ["r", "main"] ["r", "wt"] ["r", "wt", "sub"]
      (fun _ => false)
      (by refine ⟨?_, ?_, ?_⟩ <;> decide)).2.2.2.2.1 ["sub"] (by decide) (by decide)
      (by decide)
    rw [h]
    decide
  · exact (getTargetPath_spec ["r", "main"] ["r", "wt"] ["r", "wt", "..foo"]
      (fun p => decide (p = ["r", "main", "..foo"]))
      (by refine ⟨?_, ?_, ?_⟩ <;> decide)).2.2.2.1 ["..foo"] (by decide) (by decide)

/-- **C2 counterexample**: for worktree root `/r/wt`, destination root
`/r/main` and original cwd `/r/wt/..foo` (a directory literally named
`"..foo"`), the relative path `["..foo"]` is non-empty and does *not* escape
the worktree root, and the joined path `/r/main/..foo` exists on disk, yet
`getTargetPath` falls back to the destination root instead of the joined path
the claim prescribes: the code's test `relativePath.startsWith("..")` also
fires on a non-escaping first component that merely begins with `".."`. -/
theorem getTargetPath_dotdot_cex :
    pathRelative ["r", "wt"] ["r", "wt", "..foo"] = ["..foo"] ∧
    (["r", "wt"] <+: ["r", "wt", "..foo"]) ∧
    ["r", "wt", "..foo"] ≠ ["r", "wt"] ∧
    (fun p => decide (p = ["r", "main", "..foo"])) (["r", "main"] ++ ["..foo"]) = true ∧
    getTargetPath ["r", "main"] ["r", "wt"] (some ["r", "wt", "..foo"])
        (fun p => decide (p = ["r", "main", "..foo"])) = ["r", "main"] ∧
    (["r", "main"] : FsPath) ≠ ["r", "main"] ++ ["..foo"] := by
  refine ⟨by decide, ⟨["..foo"], rfl⟩, by decide, by decide, by decide, by decide⟩

/-! ## Quick create (create panel, quick-create effect)

The name validators (`validateDirectoryName`, `validateBranchName`, from
`src/utils`, not under the provided source) are taken as parameters: a
validator returns `some errorMessage` on failure and `none` on success, and
every claim below holds for arbitrary validators. -/

/-- A branch as reported by the git service. -/
structure GitBranch where
  name : String
  isCurrent : Bool
  isDefault : Bool
deriving DecidableEq, Repr

/-- The arguments the quick-create effect passes to
`gitService.createWorktree` (`basePath`, derived from the config's path
template by a utility outside the provided source, is not modelled). -/
structure CreateWorktreeRequest where
  name : String
  sourceBranch : String
  newBranch : String
deriving DecidableEq, Repr

/-- Terminal outcome of the quick-create effect's synchronous decision part:
either the effect returns without doing anything (guard), or it sets an error
state, or it invokes `createWorktree` with the given request. -/
inductive QuickCreateOutcome where
  | noAction
  | error (msg : String)
  | create (req : CreateWorktreeRequest)
deriving DecidableEq, Repr

/-- From `src/panels/create/index.tsx` (quick-create effect, source branch
resolution): priority CLI `--from` > config `defaultSourceBranch` > current
branch; JS truthiness of the strings is the test against `""`. -/
def resolveSourceBranch (fromBranch defaultSourceBranch : String)
    (branches : List GitBranch) : Except String GitBranch :=
  if fromBranch ≠ "" then
    match branches.find? (fun b => b.name = fromBranch) with
    | some b => .ok b
    | none => .error ("Specified branch '" ++ fromBranch ++ "' not found")
  else if defaultSourceBranch ≠ "" then
    match branches.find? (fun b => b.name = defaultSourceBranch) with
    | some b => .ok b
    | none =>
      .error ("Configured default branch '" ++ defaultSourceBranch ++ "' not found")
  else
    match branches.find? (fun b => b.isCurrent) with
    | some b => .ok b
    | none => .error "Could not determine current branch"

/-- From `src/panels/create/index.tsx` (quick-create effect): guard (no name,
no branches loaded yet, or still loading), then directory-name validation,
then branch-name validation on the prefixed name, then the collision check,
then source-branch resolution; only if all succeed is `createWorktree`
invoked. -/
def quickCreateDecision (validateDirectoryName validateBranchName : String → Option String)
    (quickCreateName fromBranch : String) (config : WorktreeConfig)
    (branches : List GitBranch) (loading : Bool) : QuickCreateOutcome :=
  if quickCreateName = "" ∨ branches.length = 0 ∨ loading = true then .noAction
  else
    let prefixedBranchName := applyBranchPrefix quickCreateName config.branchPrefix
    match validateDirectoryName quickCreateName with
    | some dirError => .error ("Invalid name: " ++ dirError)
    | none =>
      match validateBranchName prefixedBranchName with
      | some branchError => .error ("Invalid branch name: " ++ branchError)
      | none =>
        if (branches.find? (fun b => b.name = prefixedBranchName)).isSome then
          .error ("Branch '" ++ prefixedBranchName ++ "' already exists")
        else
          match resolveSourceBranch fromBranch config.defaultSourceBranch branches with
          | .error e => .error e
          | .ok src => .create ⟨quickCreateName, src.name, prefixedBranchName⟩

/-- **C6**: in the (running) create flow, if directory-name validation fails,
or branch-name validation of the prefixed name fails, or the prefixed name
equals the name of an existing branch, the flow rejects with an error and
`createWorktree` is never invoked. -/
theorem quickCreateDecision_rejects (vDir vBranch : String → Option String)
    (name fromBranch : String) (config : WorktreeConfig) (branches : List GitBranch)
    (hname : name ≠ "") (hbr : branches ≠ [])
    (hfail : (∃ e, vDir name = some e) ∨
      (∃ e, vBranch (applyBranchPrefix name config.branchPrefix) = some e) ∨
      (∃ b ∈ branches, b.name = applyBranchPrefix name config.branchPrefix)) :
    (∃ msg, quickCreateDecision vDir vBranch name fromBranch config branches false =
      .error msg) ∧
    (∀ req, quickCreateDecision vDir vBranch name fromBranch config branches false ≠
      .create req) := by
  have hlen : branches.length ≠ 0 := by
    simpa [List.length_eq_zero] using hbr
  cases hdir : vDir name with
  | some e =>
    refine ⟨⟨"Invalid name: " ++ e, ?_⟩, ?_⟩
    · simp [quickCreateDecision, hname, hlen, hdir]
    · intro req h
      simp [quickCreateDecision, hname, hlen, hdir] at h
  | none =>
    cases hbv : vBranch (applyBranchPrefix name config.branchPrefix) with
    | some e =>
      refine ⟨⟨"Invalid branch name: " ++ e, ?_⟩, ?_⟩
      · simp [quickCreateDecision, hname, hlen, hdir, hbv]
      · intro req h
        simp [quickCreateDecision, hname, hlen, hdir, hbv] at h
    | none =>
      have hcol : ∃ b ∈ branches, b.name = applyBranchPrefix name config.branchPrefix := by
        rcases hfail with ⟨e, he⟩ | ⟨e, he⟩ | hc
        · rw [hdir] at he; exact absurd he (by simp)
        · rw [hbv] at he; exact absurd he (by simp)
        · exact hc
      have hfind : (branches.find?
          (fun b => b.name = applyBranchPrefix name config.branchPrefix)).isSome = true := by
        rw [List.find?_isSome]
        obtain ⟨b, hb, hbn⟩ := hcol
        exact ⟨b, hb, by simp [hbn]⟩
      refine ⟨⟨"Branch '" ++ applyBranchPrefix name config.branchPrefix ++
        "' already exists", ?_⟩, ?_⟩
      · simp [quickCreateDecision, hname, hlen, hdir, hbv, hfind]
      · intro req h
        simp [quickCreateDecision, hname, hlen, hdir, hbv, hfind] at h

/-- Witness for `quickCreateDecision_rejects`: entered name `"login"` with
configured prefix `"team/"` collides with existing branch `"team/login"` and
the flow errors instead of creating. -/
theorem quickCreateDecision_rejects_witness :
    ∃ msg, quickCreateDecision (fun _ => none) (fun _ => none) "login" ""
      ⟨[], [], "", [], "", false, "team/", ""⟩
      [⟨"team/login", true, false⟩] false = .error msg := by
  exact (quickCreateDecision_rejects (fun _ => none) (fun _ => none) "login" ""
    ⟨[], [], "", [], "", false, "team/", ""⟩ [⟨"team/login", true, false⟩]
    (by decide) (by decide)
    (Or.inr (Or.inr ⟨⟨"team/login", true, false⟩, by decide, by decide⟩))).1

/-- **C7**: in quick create, once name validation and the collision check
pass, the source branch is resolved with precedence explicit `--from`
override > configured default source branch > currently checked-out branch;
when the chosen candidate is found `createWorktree` is invoked with it as the
source, and when it does not resolve to an existing branch the flow fails
with an error and creates nothing. -/
theorem quickCreateDecision_source_precedence (vDir vBranch : String → Option String)
    (name fromBranch : String) (config : WorktreeConfig) (branches : List GitBranch)
    (hname : name ≠ "") (hbr : branches ≠ [])
    (hdir : vDir name = none)
    (hbv : vBranch (applyBranchPrefix name config.branchPrefix) = none)
    (hcol : branches.find?
      (fun b => b.name = applyBranchPrefix name config.branchPrefix) = none) :
    (∀ b, fromBranch ≠ "" →
      branches.find? (fun x => x.name = fromBranch) = some b →
      quickCreateDecision vDir vBranch name fromBranch config branches false =
        .create ⟨name, b.name, applyBranchPrefix name config.branchPrefix⟩ ∧
        b.name = fromBranch) ∧
    (fromBranch ≠ "" →
      branches.find? (fun x => x.name = fromBranch) = none →
      ∃ msg, quickCreateDecision vDir vBranch name fromBranch config branches false =
        .error msg) ∧
    (∀ b, fromBranch = "" → config.defaultSourceBranch ≠ "" →
      branches.find? (fun x => x.name = config.defaultSourceBranch) = some b →
      quickCreateDecision vDir vBranch name fromBranch config branches false =
        .create ⟨name, b.name, applyBranchPrefix name config.branchPrefix⟩ ∧
        b.name = config.defaultSourceBranch) ∧
    (fromBranch = "" → config.defaultSourceBranch ≠ "" →
      branches.find? (fun x => x.name = config.defaultSourceBranch) = none →
      ∃ msg, quickCreateDecision vDir vBranch name fromBranch config branches false =
        .error msg) ∧
    (∀ b, fromBranch = "" → config.defaultSourceBranch = "" →
      branches.find? (fun x => x.isCurrent) = some b →
      quickCreateDecision vDir vBranch name fromBranch config branches false =
        .create ⟨name, b.name, applyBranchPrefix name config.branchPrefix⟩) ∧
    (fromBranch = "" → config.defaultSourceBranch = "" →
      branches.find? (fun x => x.isCurrent) = none →
      ∃ msg, quickCreateDecision vDir vBranch name fromBranch config branches false =
        .error msg) := by
  have hlen : branches.length ≠ 0 := by
    simpa [List.length_eq_zero] using hbr
  have hfind : (branches.find?
      (fun b => b.name = applyBranchPrefix name config.branchPrefix)).isSome = false := by
    simp [hcol]
  refine ⟨?_, ?_, ?_, ?_, ?_, ?_⟩
  · intro b hfrom hf
    constructor
    · simp [quickCreateDecision, resolveSourceBranch, hname, hlen, hdir, hbv, hfind,
        hfrom, hf]
    · simpa using List.find?_some hf
  · intro hfrom hf
    exact ⟨"Specified branch '" ++ fromBranch ++ "' not found",
      by simp [quickCreateDecision, resolveSourceBranch, hname, hlen, hdir, hbv, hfind,
        hfrom, hf]⟩
  · intro b hfrom hdef hf
    constructor
    · simp [quickCreateDecision, resolveSourceBranch, hname, hlen, hdir, hbv, hfind,
        hfrom, hdef, hf]
    · simpa using List.find?_some hf
  · intro hfrom hdef hf
    exact ⟨"Configured default branch '" ++ config.defaultSourceBranch ++ "' not found",
      by simp [quickCreateDecision, resolveSourceBranch, hname, hlen, hdir, hbv, hfind,
        hfrom, hdef, hf]⟩
  · intro b hfrom hdef hf
    simp [quickCreateDecision, resolveSourceBranch, hname, hlen, hdir, hbv, hfind,
      hfrom, hdef, hf]
  · intro hfrom hdef hf
    exact ⟨"Could not determine current branch",
      by simp [quickCreateDecision, resolveSourceBranch, hname, hlen, hdir, hbv, hfind,
        hfrom, hdef, hf]⟩

/-- Witness for `quickCreateDecision_source_precedence`: with branches `main`
(current, configured default) and `dev`, the explicit `--from dev` override
wins and the worktree is created from `dev`. -/
theorem quickCreateDecision_source_precedence_witness :
    quickCreateDecision (fun _ => none) (fun _ => none) "login" "dev"
      ⟨[], [], "", [], "", false, "team/", "main"⟩
      [⟨"main", true, false⟩, ⟨"dev", false, false⟩] false =
      .create ⟨"login", "dev", "team/login"⟩ := by
  have h := (quickCreateDecision_source_precedence (fun _ => none) (fun _ => none)
    "login" "dev" ⟨[], [], "", [], "", false, "team/", "main"⟩
    [⟨"main", true, false⟩, ⟨"dev", false, false⟩]
    (by decide) (by decide) rfl rfl (by decide)).1 ⟨"dev", false, false⟩
    (by decide) (by decide)
  rw [h.1]
  decide

/-! ## Saving the configuration (`ConfigService.saveConfig`)

The schema validator (`validateConfig`, in `src/schemas/config-schema.ts`,
not under the provided source) is taken as a parameter `validate`; the claims
hold for an arbitrary validator.  Filesystem effects are modelled as an
ordered event trace. -/

/-- A filesystem effect issued by `saveConfig`, in issue order. -/
inductive FsEvent where
  | mkdirRecursive (dir : FsPath)
  | writeConfigFile (path : FsPath) (content : WorktreeConfig)
deriving DecidableEq, Repr

/-- The `ConfigService` instance state: the stored in-memory configuration
and the remembered config path. -/
structure ConfigServiceState where
  config : WorktreeConfig
  configPath : Option FsPath
deriving DecidableEq, Repr

/-- Model of node `path.dirname` on a normalized component path. -/
def dirname (p : FsPath) : FsPath := p.dropLast

/-- From `src/services/config-service.ts` (`ConfigService.saveConfig`):
```
const configPath = path || this.configPath
if (!configPath) throw new ConfigError("No config path available for saving")
const validation = validateConfig(config)
if (!validation.success) throw new ConfigError(`Invalid configuration: ...`)
await mkdir(dirname(configPath), { recursive: true })
await writeFile(configPath, JSON.stringify(config, null, 2), "utf-8")
this.config = { ...config }
this.configPath = configPath
```
Returns the state after the call, the ordered filesystem events issued, and
the error thrown if any (a thrown error leaves state and filesystem
untouched). -/
def saveConfig (validate : WorktreeConfig → Bool) (st : ConfigServiceState)
    (config : WorktreeConfig) (path : Option FsPath) :
    ConfigServiceState × List FsEvent × Option String :=
  match path.orElse (fun _ => st.configPath) with
  | none => (st, [], some "No config path available for saving")
  | some configPath =>
    if validate config then
      (⟨config, some configPath⟩,
        [.mkdirRecursive (dirname configPath), .writeConfigFile configPath config],
        none)
    else (st, [], some "Invalid configuration")

/-- **C8**: `saveConfig` re-validates before writing: a configuration the
validator rejects produces a `ConfigError` and no filesystem event — the
stored in-memory configuration and the file are unchanged — while for a
validated configuration the write to the resolved path is preceded by
ensuring its parent directory exists (the recursive-mkdir event comes
immediately before the write event), after which the in-memory configuration
is the saved one. -/
theorem saveConfig_spec (validate : WorktreeConfig → Bool) (st : ConfigServiceState)
    (config : WorktreeConfig) (path : Option FsPath) :
    (validate config = false →
      ∃ msg, saveConfig validate st config path = (st, [], some msg)) ∧
    (∀ p, validate config = true → path = some p →
      saveConfig validate st config path =
        (⟨config, some p⟩,
          [.mkdirRecursive (dirname p), .writeConfigFile p config], none)) ∧
    (∀ p, validate config = true → path = none → st.configPath = some p →
      saveConfig validate st config path =
        (⟨config, some p⟩,
          [.mkdirRecursive (dirname p), .writeConfigFile p config], none)) ∧
    (path = none → st.configPath = none →
      ∃ msg, saveConfig validate st config path = (st, [], some msg)) := by
  refine ⟨?_, ?_, ?_, ?_⟩
  · intro hv
    cases hpath : path.orElse (fun _ => st.configPath) with
    | none => exact ⟨"No config path available for saving", by simp [saveConfig, hpath]⟩
    | some p => exact ⟨"Invalid configuration", by simp [saveConfig, hpath, hv]⟩
  · intro p hv hp
    simp [saveConfig, hp, Option.orElse, hv]
  · intro p hv hp hst
    simp [saveConfig, hp, hst, Option.orElse, hv]
  · intro hp hst
    exact ⟨"No config path available for saving",
      by simp [saveConfig, hp, hst, Option.orElse]⟩

/-- Witness for `saveConfig_spec`: a validator rejecting everything makes
`saveConfig` report the error with no filesystem event and an unchanged
state, and a validator accepting everything makes it ensure the parent
directory before writing `~/x/.branchlet.json`. -/
theorem saveConfig_spec_witness :
    (∃ msg, saveConfig (fun _ => false) ⟨DEFAULT_CONFIG, none⟩ DEFAULT_CONFIG
      (some ["home", "x", ".branchlet.json"]) = (⟨DEFAULT_CONFIG, none⟩, [], some msg)) ∧
    saveConfig (fun _ => true) ⟨DEFAULT_CONFIG, none⟩ DEFAULT_CONFIG
      (some ["home", "x", ".branchlet.json"]) =
      (⟨DEFAULT_CONFIG, some ["home", "x", ".branchlet.json"]⟩,
        [.mkdirRecursive ["home", "x"],
          .writeConfigFile ["home", "x", ".branchlet.json"] DEFAULT_CONFIG], none) := by
  constructor
  · exact (saveConfig_spec (fun _ => false) ⟨DEFAULT_CONFIG, none⟩ DEFAULT_CONFIG
      (some ["home", "x", ".branchlet.json"])).1 rfl
  · have h := (saveConfig_spec (fun _ => true) ⟨DEFAULT_CONFIG, none⟩ DEFAULT_CONFIG
      (some ["home", "x", ".branchlet.json"])).2.1 ["home", "x", ".branchlet.json"]
      rfl rfl
    rw [h]
    rfl
